import Mathlib

/-!
Verification of the codexlog/agentlog session-log tool.

This file gives a shallow embedding, in Lean 4, of the parsing/normalization
layer and the chat renderer of the repository, and proves (or refutes) the
behavioural claims made about them.

Conventions of the embedding:
* Go strings are Lean `String`s; where a function iterates over runes we work
  on `List Char` (Go `range` over a string yields runes).
* JSON documents are modelled by the inductive `Json`; a raw input line is an
  `Option Json` (`none` models bytes that are not valid JSON at all).
* Machine integers are `Int`/`Nat` (no overflow is relevant anywhere here).
* Fallible Go code returning `(T, error)` becomes `Except String T`.
-/

/-! ## JSON values -/

/-- A JSON document, as produced by `encoding/json`.  Numbers are modelled as
integers: no claim involves fractional numeric payloads. -/
inductive Json where
  | null
  | bool (b : Bool)
  | num (n : Int)
  | str (s : String)
  | arr (elems : List Json)
  | obj (fields : List (String × Json))

mutual

/-- Canonical serialization of a JSON value.  It stands in for Go's
`string(raw)` on a `json.RawMessage`: the embedding works on parsed values, so
the original byte sequence is reconstructed canonically (string escaping is
not modelled; no claim depends on the rendered text of a fallback block). -/
def Json.render : Json → String
  | .null => "null"
  | .bool true => "true"
  | .bool false => "false"
  | .num n => toString n
  | .str s => "\"" ++ s ++ "\""
  | .arr elems => "[" ++ Json.renderElems elems ++ "]"
  | .obj fields => "\x7b" ++ Json.renderFields fields ++ "\x7d"

/-- Render the comma-separated elements of a JSON array. -/
def Json.renderElems : List Json → String
  | [] => ""
  | [j] => j.render
  | j :: rest => j.render ++ "," ++ Json.renderElems rest

/-- Render the comma-separated members of a JSON object. -/
def Json.renderFields : List (String × Json) → String
  | [] => ""
  | [(k, j)] => "\"" ++ k ++ "\":" ++ j.render
  | (k, j) :: rest => "\"" ++ k ++ "\":" ++ j.render ++ "," ++ Json.renderFields rest

end

/-- Object-field lookup.  `encoding/json` processes members in order and later
duplicates overwrite earlier ones, so the last binding wins. -/
def Json.getField (fields : List (String × Json)) (key : String) : Option Json :=
  match fields with
  | [] => none
  | (k, v) :: rest =>
    match Json.getField rest key with
    | some r => some r
    | none => if k = key then some v else none

/-- `encoding/json` unmarshalling of an object member into a Go `string`
field: an absent member or JSON `null` leaves the zero value, a JSON string
is taken verbatim, and any other JSON type is a type error. -/
def unmarshalStringField (fields : List (String × Json)) (key : String) :
    Except String String :=
  match Json.getField fields key with
  | none => .ok ""
  | some .null => .ok ""
  | some (.str s) => .ok s
  | some _ => .error ("cannot unmarshal field " ++ key ++ " into string")

/-- `encoding/json` unmarshalling of an object member into a Go `int` field. -/
def unmarshalIntField (fields : List (String × Json)) (key : String) :
    Except String Int :=
  match Json.getField fields key with
  | none => .ok 0
  | some .null => .ok 0
  | some (.num n) => .ok n
  | some _ => .error ("cannot unmarshal field " ++ key ++ " into int")

/-! ## Go `time.Time` and RFC 3339 parsing

`time.Parse` with the `RFC3339Nano`/`RFC3339` layouts accepts a strict
RFC 3339 value — four-digit year, `T` separator, optional fractional seconds
(accepted under both layouts), and either `Z` or a `±hh:mm` offset — with
calendar validation of every component. -/

/-- A parsed wall-clock time, standing in for Go `time.Time`.  The zone is
kept as an offset in minutes; nanoseconds store the fractional seconds. -/
structure GoTime where
  year : Nat
  month : Nat
  day : Nat
  hour : Nat
  minute : Nat
  second : Nat
  nanos : Nat
  offsetMinutes : Int
deriving DecidableEq, Repr

/-- The zero `time.Time`: January 1, year 1, 00:00:00 UTC. -/
def GoTime.zero : GoTime := ⟨1, 1, 1, 0, 0, 0, 0, 0⟩

/-- Numeric value of an ASCII digit. -/
def digitVal (c : Char) : Option Nat :=
  if c.isDigit then some (c.toNat - 48) else none

/-- Read exactly two ASCII digits. -/
def parse2Digits : List Char → Option (Nat × List Char)
  | c1 :: c2 :: rest => do
    let d1 ← digitVal c1
    let d2 ← digitVal c2
    some (d1 * 10 + d2, rest)
  | _ => none

/-- Read exactly four ASCII digits. -/
def parse4Digits (cs : List Char) : Option (Nat × List Char) := do
  let (hi, cs) ← parse2Digits cs
  let (lo, cs) ← parse2Digits cs
  some (hi * 100 + lo, cs)

/-- Require a specific literal character. -/
def expectChar (c : Char) : List Char → Option (List Char)
  | d :: rest => if d = c then some rest else none
  | [] => none

/-- Nanoseconds denoted by a fractional-seconds digit string; at most nine
digits are significant (Go truncates the rest). -/
def nanosOfFracDigits (ds : List Nat) : Nat :=
  let ds9 := ds.take 9
  (ds9.foldl (fun acc d => acc * 10 + d) 0) * 10 ^ (9 - ds9.length)

/-- Optional fractional seconds: a period followed by at least one digit.  A
period not followed by a digit is left in place (and will fail zone parsing),
exactly as in Go's RFC 3339 fast path. -/
def parseFraction (cs : List Char) : Nat × List Char :=
  match cs with
  | '.' :: rest =>
    let ds := rest.takeWhile Char.isDigit
    if ds.isEmpty then (0, cs)
    else (nanosOfFracDigits (ds.filterMap digitVal), rest.dropWhile Char.isDigit)
  | _ => (0, cs)

/-- Zone suffix: `Z` or `±hh:mm` with `hh ≤ 23`, `mm ≤ 59`; result in
minutes east of UTC. -/
def parseZone (cs : List Char) : Option Int :=
  match cs with
  | ['Z'] => some 0
  | [sign, h1, h2, sep, m1, m2] => do
    if (sign = '+' ∨ sign = '-') ∧ sep = ':' then
      let hh ← do
        let a ← digitVal h1
        let b ← digitVal h2
        some (a * 10 + b)
      let mm ← do
        let a ← digitVal m1
        let b ← digitVal m2
        some (a * 10 + b)
      if hh ≤ 23 ∧ mm ≤ 59 then
        some (if sign = '-' then -((hh * 60 + mm : Nat) : Int) else ((hh * 60 + mm : Nat) : Int))
      else none
    else none
  | _ => none

/-- Gregorian leap-year rule, as in Go's `time` package. -/
def isLeapYear (y : Nat) : Bool := y % 4 = 0 && (y % 100 != 0 || y % 400 = 0)

/-- Number of days in a month. -/
def daysInMonth (y m : Nat) : Nat :=
  if m = 2 then (if isLeapYear y then 29 else 28)
  else if m = 4 || m = 6 || m = 9 || m = 11 then 30
  else 31

/-- Strict RFC 3339 recognition with calendar validation, modelling Go's
`time.Parse` fast path for the RFC 3339 layouts. -/
def parseRFC3339Value (cs : List Char) : Option GoTime := do
  let (year, cs) ← parse4Digits cs
  let cs ← expectChar '-' cs
  let (month, cs) ← parse2Digits cs
  let cs ← expectChar '-' cs
  let (day, cs) ← parse2Digits cs
  let cs ← expectChar 'T' cs
  let (hour, cs) ← parse2Digits cs
  let cs ← expectChar ':' cs
  let (minute, cs) ← parse2Digits cs
  let cs ← expectChar ':' cs
  let (second, cs) ← parse2Digits cs
  let (nanos, cs) := parseFraction cs
  let offset ← parseZone cs
  if 1 ≤ month ∧ month ≤ 12 ∧ 1 ≤ day ∧ day ≤ daysInMonth year month
      ∧ hour ≤ 23 ∧ minute ≤ 59 ∧ second ≤ 59 then
    some ⟨year, month, day, hour, minute, second, nanos, offset⟩
  else none

/-- Go `time.Parse(time.RFC3339Nano, value)` — the fractional-seconds
profile.  Fractional seconds are optional. -/
def goParseRFC3339Nano (value : String) : Option GoTime :=
  parseRFC3339Value value.toList

/-- Go `time.Parse(time.RFC3339, value)` — the seconds-only profile.  Go's
parser nevertheless accepts fractional seconds in the value even though the
layout carries none, so the accepted language coincides with the
fractional-seconds profile. -/
def goParseRFC3339 (value : String) : Option GoTime :=
  parseRFC3339Value value.toList

/-- `parseTimestamp` (identical in internal/parser/parser.go and
internal/claude/parser.go): empty is an error, then try the
fractional-seconds profile first and the seconds-only profile second. -/
def parseTimestamp (value : String) : Except String GoTime :=
  if value = "" then .error "missing timestamp"
  else
    match goParseRFC3339Nano value with
    | some ts => .ok ts
    | none =>
      match goParseRFC3339 value with
      | some ts => .ok ts
      | none => .error ("cannot parse timestamp: " ++ value)

/-! ## The normalized event model (internal/model) -/

/-- `model.ContentBlock`: a flattened, renderable fragment of a message. -/
structure ContentBlock where
  type : String
  text : String
deriving DecidableEq, Repr

/-- `model.Event` (codexlog variant): one normalized entry of the session
JSONL stream. -/
structure Event where
  timestamp : GoTime := GoTime.zero
  kind : String := ""
  role : String := ""
  payloadType : String := ""
  content : List ContentBlock := []
  raw : String := ""
deriving DecidableEq, Repr

namespace Parser

/-! ## Family A decoder (codexlog internal/parser/parser.go) -/

/-- `rawRecord`: the top-level envelope. `payload` is a `json.RawMessage`;
`none` models an absent member. -/
structure RawRecord where
  timestamp : String
  type : String
  payload : Option Json

/-- Unmarshal the envelope.  A struct target accepts a JSON object (absent
members keep zero values) or JSON `null` (no-op); anything else is a type
error — this is the family-A "structural decode" step that is fatal for the
whole file. -/
def unmarshalRawRecord : Json → Except String RawRecord
  | .obj fields => do
    let ts ← unmarshalStringField fields "timestamp"
    let ty ← unmarshalStringField fields "type"
    .ok ⟨ts, ty, Json.getField fields "payload"⟩
  | .null => .ok ⟨"", "", none⟩
  | _ => .error "unmarshal record: not an object"

/-- `sessionMetaPayload`. -/
structure SessionMetaPayload where
  id : String
  timestamp : String
  cwd : String
  originator : String
  cliVersion : String

/-- Unmarshal a `session_meta` payload.  An absent `json.RawMessage` has
length zero and `json.Unmarshal` rejects empty input. -/
def unmarshalSessionMetaPayload : Option Json → Except String SessionMetaPayload
  | none => .error "unexpected end of JSON input"
  | some (.obj fields) => do
    let id ← unmarshalStringField fields "id"
    let ts ← unmarshalStringField fields "timestamp"
    let cwd ← unmarshalStringField fields "cwd"
    let orig ← unmarshalStringField fields "originator"
    let ver ← unmarshalStringField fields "cli_version"
    .ok ⟨id, ts, cwd, orig, ver⟩
  | some .null => .ok ⟨"", "", "", "", ""⟩
  | some _ => .error "unmarshal session_meta payload: not an object"

/-- `responsePayload`: `type`, `role`, and a raw `content` sub-value. -/
structure ResponsePayload where
  type : String
  role : String
  content : Option Json

/-- Unmarshal a `response_item`/`event_msg`/`turn_context` payload. -/
def unmarshalResponsePayload : Option Json → Except String ResponsePayload
  | none => .error "unexpected end of JSON input"
  | some (.obj fields) => do
    let ty ← unmarshalStringField fields "type"
    let role ← unmarshalStringField fields "role"
    .ok ⟨ty, role, Json.getField fields "content"⟩
  | some .null => .ok ⟨"", "", none⟩
  | some _ => .error "unmarshal response payload: not an object"

/-- The wire shape `contentBlock` of parser.go: `{type, text}`. -/
structure WireContentBlock where
  type : String
  text : String

/-- Unmarshal one element of a `[]contentBlock`: an object (extra members
ignored) or `null` (zero value); anything else is a type error. -/
def unmarshalContentBlock : Json → Except String WireContentBlock
  | .obj fields => do
    let ty ← unmarshalStringField fields "type"
    let tx ← unmarshalStringField fields "text"
    .ok ⟨ty, tx⟩
  | .null => .ok ⟨"", ""⟩
  | _ => .error "cannot unmarshal into contentBlock"

/-- Unmarshal into `[]contentBlock`: JSON `null` yields the nil slice, an
array decodes element-wise, anything else is a type error. -/
def unmarshalContentArray : Json → Except String (List WireContentBlock)
  | .null => .ok []
  | .arr elems => elems.mapM unmarshalContentBlock
  | _ => .error "cannot unmarshal into []contentBlock"

/-- Unmarshal into a bare Go `string`: a JSON string, or `null` (no-op). -/
def unmarshalAsString : Json → Except String String
  | .str s => .ok s
  | .null => .ok ""
  | _ => .error "cannot unmarshal into string"

/-- `decodeContentBlocks` (parser.go): array of typed blocks first, then bare
string, then a single `json` capture-all block. -/
def decodeContentBlocks (raw : Option Json) : List ContentBlock :=
  match raw with
  | none => []
  | some j =>
    match unmarshalContentArray j with
    | .ok array => array.map (fun item => ⟨item.type, item.text⟩)
    | .error _ =>
      match unmarshalAsString j with
      | .ok s => [⟨"text", s⟩]
      | .error _ => [⟨"json", j.render⟩]

/-- `parseEvent` (parser.go, codexlog variant): envelope, timestamp, then a
per-kind payload decode.  Go's `if err != nil { return ..., err }` steps are
rendered as explicit matches on the intermediate results. -/
def parseEvent (raw : Json) : Except String Event :=
  match unmarshalRawRecord raw with
  | .error err => .error err
  | .ok r =>
    match (if r.timestamp = "" then .ok GoTime.zero else parseTimestamp r.timestamp) with
    | .error err => .error err
    | .ok ts =>
      match r.type with
      | "session_meta" =>
        match unmarshalSessionMetaPayload r.payload with
        | .error err => .error err
        | .ok payload =>
          .ok { timestamp := ts, kind := r.type, raw := raw.render
                payloadType := payload.originator
                content := [⟨"id", payload.id⟩] }
      | "response_item" =>
        match unmarshalResponsePayload r.payload with
        | .error err => .error err
        | .ok payload =>
          .ok { timestamp := ts, kind := r.type, raw := raw.render
                role := payload.role, payloadType := payload.type
                content := decodeContentBlocks payload.content }
      | "event_msg" | "turn_context" =>
        match unmarshalResponsePayload r.payload with
        | .error err => .error err
        | .ok payload =>
          .ok { timestamp := ts, kind := r.type, raw := raw.render
                payloadType := payload.type
                content := decodeContentBlocks r.payload }
      | _ =>
        .ok { timestamp := ts, kind := r.type, raw := raw.render
              content := decodeContentBlocks r.payload }

/-- One raw input line: `some j` when the line is valid JSON for value `j`,
`none` when `json.Unmarshal` rejects the bytes outright. -/
def parseLine (line : Option Json) : Except String Event :=
  match line with
  | none => .error "unmarshal record: invalid JSON"
  | some j => parseEvent j

/-- `IterateEvents` (parser.go), with the callback modelled as pure
collection: returns the events delivered to the callback, in order, together
with the fatal error (if any) that aborted the scan.  A decode error aborts
the whole file immediately. -/
def iterateEvents : List (Option Json) → List Event × Option String
  | [] => ([], none)
  | line :: rest =>
    match parseLine line with
    | .error e => ([], some e)
    | .ok ev =>
      let r := iterateEvents rest
      (ev :: r.1, r.2)

end Parser

namespace Claude

/-! ## Family B decoder (agentlog internal/claude/parser.go) -/

/-- `TokenUsage` attached to assistant events. -/
structure TokenUsage where
  inputTokens : Int
  cacheCreationInputTokens : Int
  cacheReadInputTokens : Int
  outputTokens : Int
  serviceTier : String
deriving DecidableEq, Repr

/-- `ClaudeEvent`: one normalized entry of a Claude Code session file. -/
structure ClaudeEvent where
  timestamp : GoTime := GoTime.zero
  kind : String := ""
  uuid : String := ""
  parentUuid : String := ""
  sessionId : String := ""
  cwd : String := ""
  version : String := ""
  role : String := ""
  messageId : String := ""
  model : String := ""
  usage : Option TokenUsage := none
  content : List ContentBlock := []
  summaryText : String := ""
  leafUuid : String := ""
  raw : String := ""
deriving DecidableEq, Repr

/-- `rawEntry`: the family-B envelope. -/
structure RawEntry where
  type : String
  uuid : String
  parentUuid : String
  sessionId : String
  cwd : String
  version : String
  timestamp : String
  message : Option Json
  summary : String
  leafUuid : String

/-- Unmarshal the family-B envelope (object or `null`; else type error). -/
def unmarshalRawEntry : Json → Except String RawEntry
  | .obj fields => do
    let ty ← unmarshalStringField fields "type"
    let uuid ← unmarshalStringField fields "uuid"
    let parentUuid ← unmarshalStringField fields "parentUuid"
    let sessionId ← unmarshalStringField fields "sessionId"
    let cwd ← unmarshalStringField fields "cwd"
    let version ← unmarshalStringField fields "version"
    let ts ← unmarshalStringField fields "timestamp"
    let summary ← unmarshalStringField fields "summary"
    let leafUuid ← unmarshalStringField fields "leafUuid"
    .ok ⟨ty, uuid, parentUuid, sessionId, cwd, version, ts,
         Json.getField fields "message", summary, leafUuid⟩
  | .null => .ok ⟨"", "", "", "", "", "", "", none, "", ""⟩
  | _ => .error "unmarshal entry: not an object"

/-- The `usage` sub-struct of `messagePayload` (a pointer target: JSON `null`
or absence leaves it nil). -/
def unmarshalUsage (fields : List (String × Json)) :
    Except String (Option TokenUsage) :=
  match Json.getField fields "usage" with
  | none => .ok none
  | some .null => .ok none
  | some (.obj ufields) => do
    let input ← unmarshalIntField ufields "input_tokens"
    let cacheCreation ← unmarshalIntField ufields "cache_creation_input_tokens"
    let cacheRead ← unmarshalIntField ufields "cache_read_input_tokens"
    let output ← unmarshalIntField ufields "output_tokens"
    let tier ← unmarshalStringField ufields "service_tier"
    .ok (some ⟨input, cacheCreation, cacheRead, output, tier⟩)
  | some _ => .error "cannot unmarshal usage"

/-- `messagePayload`. -/
structure MessagePayload where
  id : String
  type : String
  role : String
  model : String
  content : Option Json
  usage : Option TokenUsage

/-- Unmarshal the `message` member of a user/assistant entry. -/
def unmarshalMessagePayload : Json → Except String MessagePayload
  | .obj fields => do
    let id ← unmarshalStringField fields "id"
    let ty ← unmarshalStringField fields "type"
    let role ← unmarshalStringField fields "role"
    let model ← unmarshalStringField fields "model"
    let usage ← unmarshalUsage fields
    .ok ⟨id, ty, role, model, Json.getField fields "content", usage⟩
  | .null => .ok ⟨"", "", "", "", none, none⟩
  | _ => .error "unmarshal message: not an object"

/-- The family-B wire `contentBlock`: `{type, text, id, name, input,
tool_use_id, content, is_error}`. -/
structure WireBlock where
  type : String
  text : String
  id : String
  name : String
  input : Option Json
  toolUseId : String
  content : Option Json

/-- Unmarshal one element of the family-B `[]contentBlock`. -/
def unmarshalWireBlock : Json → Except String WireBlock
  | .obj fields => do
    let ty ← unmarshalStringField fields "type"
    let tx ← unmarshalStringField fields "text"
    let id ← unmarshalStringField fields "id"
    let name ← unmarshalStringField fields "name"
    let toolUseId ← unmarshalStringField fields "tool_use_id"
    .ok ⟨ty, tx, id, name, Json.getField fields "input", toolUseId,
         Json.getField fields "content"⟩
  | .null => .ok ⟨"", "", "", "", none, "", none⟩
  | _ => .error "cannot unmarshal into contentBlock"

/-- Unmarshal into the family-B `[]contentBlock`. -/
def unmarshalWireBlocks : Json → Except String (List WireBlock)
  | .null => .ok []
  | .arr elems => elems.mapM unmarshalWireBlock
  | _ => .error "cannot unmarshal into []contentBlock"

/-- Render one decoded family-B block to a normalized `ContentBlock`,
following the switch in `decodeContent`.  `raw` is the whole content
sub-value (the default arm serializes the WHOLE payload, as the source
does with `string(raw)`). -/
def renderWireBlock (raw : Json) (block : WireBlock) : ContentBlock :=
  match block.type with
  | "text" => ⟨"text", block.text⟩
  | "tool_use" =>
    let text := "Tool: " ++ block.name ++ " (ID: " ++ block.id ++ ")"
    let text :=
      match block.input with
      | some input => text ++ "\nInput: " ++ input.render
      | none => text
    ⟨"tool_use", text⟩
  | "tool_result" =>
    let resultText :=
      match block.content with
      | none => ""
      | some c =>
        match unmarshalWireBlocks c with
        | .ok nested =>
          String.intercalate "\n"
            ((nested.map (fun nb => nb.text)).filter (fun t => t ≠ ""))
        | .error _ => c.render
    let text := "Tool Result (ID: " ++ block.toolUseId ++ ")"
    let text := if resultText ≠ "" then text ++ "\n" ++ resultText else text
    ⟨"tool_result", text⟩
  | _ => ⟨"json", raw.render⟩

/-- `decodeContent` (claude/parser.go): bare string first, then array of
typed blocks, then a single `json` capture-all block. -/
def decodeContent (raw : Option Json) : List ContentBlock :=
  match raw with
  | none => []
  | some j =>
    match Parser.unmarshalAsString j with
    | .ok s => [⟨"text", s⟩]
    | .error _ =>
      match unmarshalWireBlocks j with
      | .ok blocks => blocks.map (renderWireBlock j)
      | .error _ => [⟨"json", j.render⟩]

/-- `parseEvent` (claude/parser.go): envelope, timestamp, then the
user/assistant message decode or the summary fields. -/
def parseEvent (raw : Json) : Except String ClaudeEvent := do
  let entry ← unmarshalRawEntry raw
  let ts ← if entry.timestamp = "" then pure GoTime.zero else parseTimestamp entry.timestamp
  let base : ClaudeEvent :=
    { timestamp := ts, kind := entry.type, uuid := entry.uuid
      parentUuid := entry.parentUuid, sessionId := entry.sessionId
      cwd := entry.cwd, version := entry.version, raw := raw.render }
  match entry.type with
  | "user" | "assistant" =>
    match entry.message with
    | none => .ok base
    | some msgJson => do
      let msg ← unmarshalMessagePayload msgJson
      .ok { base with
              role := msg.role,
              messageId := msg.id,
              model := msg.model,
              usage := msg.usage,
              content := decodeContent msg.content }
  | "summary" =>
    .ok { base with summaryText := entry.summary, leafUuid := entry.leafUuid }
  | _ => .ok base

/-- One raw family-B input line (`none` = invalid JSON bytes). -/
def parseLine (line : Option Json) : Except String ClaudeEvent :=
  match line with
  | none => .error "unmarshal entry: invalid JSON"
  | some j => parseEvent j

/-- `IterateEvents` (claude/parser.go), callback modelled as pure collection:
a decode error skips the line (`continue`) and the scan goes on. -/
def iterateEvents : List (Option Json) → List ClaudeEvent × Option String
  | [] => ([], none)
  | line :: rest =>
    match parseLine line with
    | .error _ => iterateEvents rest
    | .ok ev =>
      let r := iterateEvents rest
      (ev :: r.1, r.2)

end Claude

/-! ## Display width (github.com/mattn/go-runewidth)

Condensed model of `runewidth.RuneWidth`: control characters and zero-width
combining marks occupy 0 columns, East-Asian wide ranges occupy 2, everything
else 1.  Only the classification (0 / 1 / 2) matters for the renderer
claims. -/

/-- Zero-width code points (condensed: combining diacritics, zero-width
spaces/joiners, variation selectors). -/
def isZeroWidthCodepoint (n : Nat) : Bool :=
  (0x0300 ≤ n && n ≤ 0x036F) ||
  (0x200B ≤ n && n ≤ 0x200F) ||
  (0x20D0 ≤ n && n ≤ 0x20FF) ||
  (0xFE00 ≤ n && n ≤ 0xFE0F) ||
  n = 0xFEFF

/-- Double-width code points (condensed East-Asian wide/fullwidth ranges). -/
def isWideCodepoint (n : Nat) : Bool :=
  (0x1100 ≤ n && n ≤ 0x115F) ||
  (0x2E80 ≤ n && n ≤ 0x303E) ||
  (0x3041 ≤ n && n ≤ 0x33FF) ||
  (0x3400 ≤ n && n ≤ 0x4DBF) ||
  (0x4E00 ≤ n && n ≤ 0x9FFF) ||
  (0xA000 ≤ n && n ≤ 0xA4CF) ||
  (0xAC00 ≤ n && n ≤ 0xD7A3) ||
  (0xF900 ≤ n && n ≤ 0xFAFF) ||
  (0xFE30 ≤ n && n ≤ 0xFE4F) ||
  (0xFF00 ≤ n && n ≤ 0xFF60) ||
  (0xFFE0 ≤ n && n ≤ 0xFFE6) ||
  (0x20000 ≤ n && n ≤ 0x2FFFD) ||
  (0x30000 ≤ n && n ≤ 0x3FFFD)

/-- `runewidth.RuneWidth`: terminal columns occupied by one rune. -/
def runeWidth (c : Char) : Nat :=
  if c.toNat < 0x20 || c.toNat = 0x7F then 0
  else if isZeroWidthCodepoint c.toNat then 0
  else if isWideCodepoint c.toNat then 2
  else 1

/-- Display width of a plain (escape-free) rune sequence: the sum of the
rune widths (`runewidth.StringWidth` on clean text). -/
def displayWidth (l : List Char) : Nat :=
  (l.map runeWidth).sum

theorem runeWidth_le_two (c : Char) : runeWidth c ≤ 2 := by
  unfold runeWidth
  split
  · omega
  · split
    · omega
    · split <;> omega

/-! ## ANSI escape sequences (internal/view/chat.go)

`ansiPattern = \x1b\[[0-9;]*m`.  `ansiSplit l` matches the pattern at the
head of `l`, returning the matched sequence and the remainder. -/

/-- Is this character allowed in the parameter body of a color escape? -/
def isAnsiParamChar (c : Char) : Bool :=
  c.isDigit || c = ';'

/-- Body of the ANSI match, after `\x1b[` has been consumed: a maximal run
of parameter characters must be followed by `m` (the regex is greedy and `m`
is not a parameter character, so the match is deterministic). -/
def ansiBody (rest : List Char) : Option (List Char × List Char) :=
  match rest.dropWhile isAnsiParamChar with
  | 'm' :: tail =>
    some ('\x1b' :: '[' :: (rest.takeWhile isAnsiParamChar ++ ['m']), tail)
  | _ => none

/-- Match `\x1b\[[0-9;]*m` at the head of the list, returning the matched
sequence and the remainder. -/
def ansiSplit (l : List Char) : Option (List Char × List Char) :=
  match l with
  | '\x1b' :: '[' :: rest => ansiBody rest
  | _ => none

theorem ansiSplit_append (l seq rest : List Char)
    (h : ansiSplit l = some (seq, rest)) : l = seq ++ rest := by
  unfold ansiSplit at h
  split at h
  · unfold ansiBody at h
    split at h
    · rename_i heq
      injection h with h
      injection h with h1 h2
      subst h2
      rw [← h1]
      simp only [List.cons_append, List.cons.injEq, true_and, List.append_assoc,
        List.singleton_append, List.nil_append]
      rw [← heq]
      exact (List.takeWhile_append_dropWhile (p := isAnsiParamChar) _).symm
    · exact absurd h (by simp)
  · exact absurd h (by simp)

/-- The characters between `\x1b[` and `m` of a matched sequence are
parameter characters, and the sequence has the exact shape of the pattern. -/
theorem ansiSplit_shape (l seq rest : List Char)
    (h : ansiSplit l = some (seq, rest)) :
    ∃ params, seq = '\x1b' :: '[' :: (params ++ ['m'])
      ∧ ∀ c ∈ params, isAnsiParamChar c := by
  unfold ansiSplit at h
  split at h
  · unfold ansiBody at h
    split at h
    · injection h with h
      injection h with h1 h2
      exact ⟨_, h1.symm, fun c hc => List.mem_takeWhile_imp hc⟩
    · exact absurd h (by simp)
  · exact absurd h (by simp)

theorem ansiSplit_rest_length (l seq rest : List Char)
    (h : ansiSplit l = some (seq, rest)) : rest.length < l.length := by
  obtain ⟨params, hseq, -⟩ := ansiSplit_shape l seq rest h
  have happ := ansiSplit_append l seq rest h
  subst hseq
  rw [happ]
  simp
  omega

/-- Fuel-indexed worker for `stripAnsi`.  Every step consumes at least one
character, so any fuel of at least `l.length` computes the scan to the end;
the fuel only makes the recursion structural (and hence kernel-computable)
and is invisible in the result. -/
def stripAnsiFuel : Nat → List Char → List Char
  | _, [] => []
  | fuel + 1, c :: rest =>
    match ansiSplit (c :: rest) with
    | some (_, tail) => stripAnsiFuel fuel tail
    | none => c :: stripAnsiFuel fuel rest
  | 0, l => l

/-- Strip every (leftmost, non-overlapping) match of the ANSI pattern:
`ansiPattern.ReplaceAllString(text, "")`. -/
def stripAnsi (l : List Char) : List Char :=
  stripAnsiFuel l.length l

theorem stripAnsiFuel_congr : ∀ (f1 f2 : Nat) (l : List Char),
    l.length ≤ f1 → l.length ≤ f2 → stripAnsiFuel f1 l = stripAnsiFuel f2 l := by
  intro f1
  induction f1 with
  | zero =>
    intro f2 l h1 _
    have : l = [] := List.eq_nil_of_length_eq_zero (by omega)
    subst this
    cases f2 <;> rfl
  | succ f1 ih =>
    intro f2 l h1 h2
    match l with
    | [] => cases f2 <;> rfl
    | c :: rest =>
      match f2, h2 with
      | f2 + 1, h2 =>
        simp only [stripAnsiFuel]
        cases hm : ansiSplit (c :: rest) with
        | some pair =>
          have hlt := ansiSplit_rest_length (c :: rest) pair.1 pair.2 (by rw [hm])
          simp only [List.length_cons] at h1 h2 hlt
          exact ih f2 pair.2 (by omega) (by omega)
        | none =>
          simp only [List.length_cons] at h1 h2
          rw [ih f2 rest (by omega) (by omega)]

theorem stripAnsi_nil : stripAnsi [] = [] := rfl

theorem stripAnsi_some (l seq tail : List Char)
    (hm : ansiSplit l = some (seq, tail)) : stripAnsi l = stripAnsi tail := by
  have hlt := ansiSplit_rest_length l seq tail hm
  match l with
  | [] => simp [ansiSplit] at hm
  | c :: rest =>
    unfold stripAnsi
    simp only [List.length_cons, stripAnsiFuel, hm]
    exact stripAnsiFuel_congr _ _ tail (by simp at hlt; omega) (le_refl _)

theorem stripAnsi_none (c : Char) (rest : List Char)
    (hm : ansiSplit (c :: rest) = none) :
    stripAnsi (c :: rest) = c :: stripAnsi rest := by
  unfold stripAnsi
  simp only [List.length_cons, stripAnsiFuel, hm]

/-- `visibleWidth` (chat.go): display width of the text with all color
escape sequences removed. -/
def visibleWidth (l : List Char) : Nat :=
  displayWidth (stripAnsi l)

/-! ## wrapText / wrapLines (internal/view/chat.go) -/

/-- `strings.TrimRight(text, " ")`: remove trailing space runes. -/
def trimRightSpaces (l : List Char) : List Char :=
  (l.reverse.dropWhile (fun c => c = ' ')).reverse

/-- The rune loop of `wrapText`: `current`/`currentWidth` accumulate the line
being built; when appending the next rune would exceed `width` and the line
is non-empty, the line is flushed. -/
def wrapLoop (width : Nat) : List Char → List Char → Nat → List (List Char)
  | [], current, currentWidth =>
    if currentWidth > 0 ∨ current ≠ [] then [current] else []
  | r :: rest, current, currentWidth =>
    let rw := runeWidth r
    if currentWidth + rw > width ∧ current ≠ [] then
      current :: wrapLoop width rest [r] rw
    else
      wrapLoop width rest (current ++ [r]) (currentWidth + rw)

/-- `wrapText` (chat.go): width-aware hard wrap over runes. -/
def wrapText (text : List Char) (width : Nat) : List (List Char) :=
  if width ≤ 0 then [text]
  else if trimRightSpaces text = [] then [[]]
  else wrapLoop width (trimRightSpaces text) [] 0

/-- `wrapLines` (chat.go): wrap each line independently. -/
def wrapLines (lines : List (List Char)) (width : Nat) : List (List Char) :=
  lines.flatMap (fun line => wrapText line width)

/-! ## truncateToWidth (internal/view/chat.go) -/

/-- Fuel-indexed worker for the scan loop of `truncateToWidth` (fuel as in
`stripAnsiFuel`: any fuel of at least the list length computes the loop). -/
def truncLoopFuel (width : Nat) : Nat → List Char → List Char → Nat → List Char
  | _, [], colored, _ => colored
  | fuel + 1, c :: rest, colored, current =>
    match ansiSplit (c :: rest) with
    | some (seq, tail) => truncLoopFuel width fuel tail (colored ++ seq) current
    | none =>
      if current + runeWidth c > width then colored
      else truncLoopFuel width fuel rest (colored ++ [c]) (current + runeWidth c)
  | 0, _, colored, _ => colored

/-- The scan loop of `truncateToWidth`: copy ANSI escape sequences verbatim,
copy printable runes while they fit, and stop at the first rune that would
exceed the limit (the Go loop `break`s, dropping everything after). -/
def truncLoop (width : Nat) (l colored : List Char) (current : Nat) : List Char :=
  truncLoopFuel width l.length l colored current

theorem truncLoopFuel_congr (width : Nat) : ∀ (f1 f2 : Nat) (l colored : List Char)
    (current : Nat), l.length ≤ f1 → l.length ≤ f2 →
    truncLoopFuel width f1 l colored current = truncLoopFuel width f2 l colored current := by
  intro f1
  induction f1 with
  | zero =>
    intro f2 l colored current h1 _
    have : l = [] := List.eq_nil_of_length_eq_zero (by omega)
    subst this
    cases f2 <;> rfl
  | succ f1 ih =>
    intro f2 l colored current h1 h2
    match l with
    | [] => cases f2 <;> rfl
    | c :: rest =>
      match f2, h2 with
      | f2 + 1, h2 =>
        cases hm : ansiSplit (c :: rest) with
        | some pair =>
          obtain ⟨seq, tail⟩ := pair
          have hlt := ansiSplit_rest_length (c :: rest) seq tail hm
          simp only [List.length_cons] at h1 h2 hlt
          simp only [truncLoopFuel, hm]
          exact ih f2 tail _ _ (by omega) (by omega)
        | none =>
          simp only [List.length_cons] at h1 h2
          simp only [truncLoopFuel, hm]
          split
          · rfl
          · exact ih f2 rest _ _ (by omega) (by omega)

theorem truncLoop_nil (width : Nat) (colored : List Char) (current : Nat) :
    truncLoop width [] colored current = colored := rfl

theorem truncLoop_some (width : Nat) (l colored seq tail : List Char) (current : Nat)
    (hm : ansiSplit l = some (seq, tail)) :
    truncLoop width l colored current = truncLoop width tail (colored ++ seq) current := by
  have hlt := ansiSplit_rest_length l seq tail hm
  match l with
  | [] => simp [ansiSplit] at hm
  | c :: rest =>
    unfold truncLoop
    simp only [List.length_cons, truncLoopFuel, hm]
    exact truncLoopFuel_congr width _ _ tail _ _ (by simp at hlt; omega) (le_refl _)

theorem truncLoop_none (width : Nat) (c : Char) (rest colored : List Char) (current : Nat)
    (hm : ansiSplit (c :: rest) = none) :
    truncLoop width (c :: rest) colored current =
      if current + runeWidth c > width then colored
      else truncLoop width rest (colored ++ [c]) (current + runeWidth c) := by
  unfold truncLoop
  simp only [List.length_cons, truncLoopFuel, hm]

/-- `truncateToWidth` (chat.go): identity on text that already fits, else
scan from the left keeping sequences and fitting runes. -/
def truncateToWidth (text : List Char) (width : Nat) : List Char :=
  if visibleWidth text ≤ width then text
  else truncLoop width text [] 0

/-! ## alignmentForRole / computeLeftPad (internal/view/chat.go) -/

/-- `alignmentForRole`: system/metadata kinds align left; then the role
switch (assistant left, tool/system center, user right, default left). -/
def alignmentForRole (role : String) : String :=
  match role with
  | "session_meta" | "event_msg" | "turn_context" => "left"
  | _ =>
    match role with
    | "assistant" => "left"
    | "tool" | "system" => "center"
    | "user" => "right"
    | _ => "left"

/-- `computeLeftPad`: offset of the bubble's left edge within the terminal
line, depending on the alignment class. -/
def computeLeftPad (totalWidth bubbleWidth padding : Int) (align : String) : Int :=
  let maxPad := totalWidth - bubbleWidth - 4
  let maxPad := if maxPad < 0 then 0 else maxPad
  match align with
  | "right" =>
    if maxPad < padding then maxPad else maxPad
  | "center" =>
    let center := maxPad / 2
    let center := if center < padding then padding else center
    let center := if center > maxPad then maxPad else center
    center
  | _ =>
    if padding > maxPad then maxPad else padding

/-! ## Filter-argument parsing (shared `parseCSV` helper) -/

/-- ASCII whitespace, for `strings.TrimSpace`. -/
def isSpaceChar (c : Char) : Bool :=
  c = ' ' || c = '\t' || c = '\n' || c = '\r'

/-- `strings.TrimSpace` (restricted to ASCII whitespace, which is all the
CLI ever passes). -/
def trimSpace (s : String) : String :=
  ⟨((s.toList.dropWhile isSpaceChar).reverse.dropWhile isSpaceChar).reverse⟩

/-- `parseCSV`: split on commas, trim and lowercase each token, drop empty
tokens; a blank argument yields no tokens at all. -/
def parseCSV (arg : String) : List String :=
  if trimSpace arg = "" then []
  else
    ((arg.splitOn ",").map (fun part => (trimSpace part).toLower)).filter
      (fun token => token ≠ "")

/-- Membership against an optional inclusion set: a `nil` map constrains
nothing; a concrete set admits exactly its members. -/
def setAllows (set : Option (List String)) (value : String) : Bool :=
  match set with
  | none => true
  | some s => s.contains value

/-- Common shape of the `parse*Arg` functions: no tokens means "use the
default", the single token `all` means "unconstrained", otherwise every token
must be a known value.  Returns (set, provided). -/
def parseFilterArg (lookup : List String) (errLabel : String) (arg : String) :
    Except String (Option (List String) × Bool) :=
  let values := parseCSV arg
  if values = [] then .ok (none, false)
  else if values = ["all"] then .ok (none, true)
  else if values.all (fun token => lookup.contains token) then .ok (some values, true)
  else .error ("unknown " ++ errLabel)

namespace Codexview

/-! ## The codex view filter engine (unnamed part_003, package view) -/

/-- `viewFilters` of the codex view engine: four independent optional
inclusion sets. -/
structure ViewFilters where
  entryTypes : Option (List String)
  responseItemTypes : Option (List String)
  eventMsgTypes : Option (List String)
  payloadRoles : Option (List String)
deriving DecidableEq, Repr

/-- Valid entry types (`parseEntryTypeArg`). -/
def entryTypeLookup : List String :=
  ["session_meta", "response_item", "event_msg", "turn_context"]

/-- Valid response-item payload types (`parseResponseTypeArg`). -/
def responseTypeLookup : List String :=
  ["message", "reasoning", "function_call", "function_call_output",
   "custom_tool_call", "custom_tool_call_output"]

/-- Valid event_msg payload types (`parseEventMsgTypeArg`). -/
def eventMsgTypeLookup : List String :=
  ["token_count", "agent_reasoning", "user_message", "agent_message",
   "turn_aborted"]

/-- Valid payload roles (`parsePayloadRoleArg`). -/
def payloadRoleLookup : List String :=
  ["user", "assistant", "tool", "system"]

/-- `parseEntryTypeArg`. -/
def parseEntryTypeArg : String → Except String (Option (List String) × Bool) :=
  parseFilterArg entryTypeLookup "entry type"

/-- `parseResponseTypeArg`. -/
def parseResponseTypeArg : String → Except String (Option (List String) × Bool) :=
  parseFilterArg responseTypeLookup "response type"

/-- `parseEventMsgTypeArg`. -/
def parseEventMsgTypeArg : String → Except String (Option (List String) × Bool) :=
  parseFilterArg eventMsgTypeLookup "event_msg type"

/-- `parsePayloadRoleArg`. -/
def parsePayloadRoleArg : String → Except String (Option (List String) × Bool) :=
  parseFilterArg payloadRoleLookup "payload role"

/-- `buildViewFilters` (codex view engine): `--all` forces every set to nil;
otherwise each unspecified set falls back to its noise-reduction default. -/
def buildViewFilters (allFilter : Bool)
    (entryArg responseTypeArg eventMsgTypeArg payloadRoleArg : String) :
    Except String ViewFilters :=
  if allFilter then
    .ok ⟨none, none, none, none⟩
  else do
    let (entryFilter, entryProvided) ← parseEntryTypeArg entryArg
    let (responseTypeFilter, responseTypeProvided) ← parseResponseTypeArg responseTypeArg
    let (eventMsgTypeFilter, eventMsgTypeProvided) ← parseEventMsgTypeArg eventMsgTypeArg
    let (payloadRoleFilter, roleProvided) ← parsePayloadRoleArg payloadRoleArg
    .ok {
      entryTypes := if entryProvided then entryFilter else some ["response_item"],
      responseItemTypes :=
        if responseTypeProvided then responseTypeFilter else some ["message"],
      eventMsgTypes := if eventMsgTypeProvided then eventMsgTypeFilter else none,
      payloadRoles :=
        if roleProvided then payloadRoleFilter else some ["user", "assistant"] }

/-- `eventMatchesFilters` (codex view engine): the entry-type gate applies to
every event; the payload-type and role gates apply only to the kinds they
speak about. -/
def eventMatchesFilters (event : Event) (filters : ViewFilters) : Bool :=
  if !setAllows filters.entryTypes event.kind then false
  else
    match event.kind with
    | "response_item" =>
      if !setAllows filters.responseItemTypes event.payloadType then false
      else if !setAllows filters.payloadRoles event.role then false
      else true
    | "event_msg" =>
      if !setAllows filters.eventMsgTypes event.payloadType then false
      else true
    | _ => true

end Codexview

namespace Agentview

/-! ## The agent-generic view engine (internal/view/run.go) -/

/-- `viewFilters` (run.go): same four optional sets, keyed by plain strings. -/
structure ViewFilters where
  entryTypes : Option (List String)
  responseItemTypes : Option (List String)
  eventMsgTypes : Option (List String)
  payloadRoles : Option (List String)
deriving DecidableEq, Repr

/-- `buildViewFilters` (run.go): identical logic to the codex engine, with
the same token tables. -/
def buildViewFilters (allFilter : Bool)
    (entryArg responseTypeArg eventMsgTypeArg payloadRoleArg : String) :
    Except String ViewFilters :=
  if allFilter then
    .ok ⟨none, none, none, none⟩
  else do
    let (entryFilter, entryProvided) ←
      parseFilterArg Codexview.entryTypeLookup "entry type" entryArg
    let (responseTypeFilter, responseTypeProvided) ←
      parseFilterArg Codexview.responseTypeLookup "response type" responseTypeArg
    let (eventMsgTypeFilter, eventMsgTypeProvided) ←
      parseFilterArg Codexview.eventMsgTypeLookup "event_msg type" eventMsgTypeArg
    let (payloadRoleFilter, roleProvided) ←
      parseFilterArg Codexview.payloadRoleLookup "payload role" payloadRoleArg
    .ok {
      entryTypes := if entryProvided then entryFilter else some ["response_item"],
      responseItemTypes :=
        if responseTypeProvided then responseTypeFilter else some ["message"],
      eventMsgTypes := if eventMsgTypeProvided then eventMsgTypeFilter else none,
      payloadRoles :=
        if roleProvided then payloadRoleFilter else some ["user", "assistant"] }

/-- `eventMatchesFilters` (run.go): filtering through the agent-generic
interface is not implemented — the body is a TODO and every event is
accepted regardless of the filter sets. -/
def eventMatchesFilters (_event : Event) (_filters : ViewFilters) : Bool :=
  true

end Agentview

/-! ## The bounded event ring (internal/view/run.go, unnamed part_003)

The two copies of `eventRing` differ only in the element type, so the
embedding is polymorphic. -/

/-- `eventRing`: fixed backing array, start offset, element count. -/
structure EventRing (α : Type) where
  data : List α
  start : Nat
  length : Nat

/-- `newEventRing`: non-positive capacity yields an inert ring. -/
def newEventRing (α : Type) [Inhabited α] (capacity : Int) : EventRing α :=
  if capacity ≤ 0 then ⟨[], 0, 0⟩
  else ⟨List.replicate capacity.toNat default, 0, 0⟩

/-- `eventRing.push`: write at the logical end; when full, advance `start`
instead of growing (evicting the oldest element). -/
def EventRing.push {α : Type} (r : EventRing α) (event : α) : EventRing α :=
  if r.data.length = 0 then r
  else
    let idx := (r.start + r.length) % r.data.length
    let data := r.data.set idx event
    if r.length < r.data.length then
      { r with data := data, length := r.length + 1 }
    else
      { r with data := data, start := (r.start + 1) % r.data.length }

/-- `eventRing.slice`: the retained elements in push order. -/
def EventRing.slice {α : Type} [Inhabited α] (r : EventRing α) : List α :=
  if r.length = 0 then []
  else (List.range r.length).map
    (fun i => r.data.getD ((r.start + i) % r.data.length) default)

/-- Push a whole sequence of events, oldest first. -/
def EventRing.pushAll {α : Type} (r : EventRing α) (events : List α) : EventRing α :=
  events.foldl EventRing.push r

/-- `limitEvents` (cmd/codexlog/main.go): keep the last `max` events by
slicing the collected list. -/
def limitEvents {α : Type} (events : List α) (max : Int) : List α :=
  if max ≤ 0 ∨ (events.length : Int) ≤ max then events
  else events.drop (events.length - max.toNat)

namespace MainCmd

/-! ## The `view` subcommand body (cmd/agentlog/main.go)

The claim about the umbrella flag concerns the ORDER of validation relative
to file I/O, so the RunE body is embedded with an explicit trace of the
file-system effects it performs. -/

/-- File-system effects performed by the command, in program order. -/
inductive FileEffect where
  | stat (path : String)
  | walkSessions (root : String)
  | openSession (path : String)
deriving DecidableEq, Repr

/-- The flag values of `agentlog view`. -/
structure ViewFlags where
  arg : String
  entryTypeArg : String
  responseTypeArg : String
  eventMsgTypeArg : String
  payloadRoleArg : String
  allFilter : Bool
  forceColor : Bool
  forceNoColor : Bool

/-- `resolveSessionPath` (main.go): try the argument as a path
(`os.Stat`), then under the sessions root, then fall back to
`store.FindSessionPath`.  `fsFile p` answers "`os.Stat p` succeeds and `p`
is not a directory"; `find` abstracts the store search, whose directory walk
is recorded as a single effect. -/
def resolveSessionPath (fsFile : String → Bool)
    (find : String → String → Except String String)
    (arg root : String) : List FileEffect × Except String String :=
  if arg = "" then ([], .error "session identifier is empty")
  else if fsFile arg then ([.stat arg], .ok arg)
  else if fsFile (root ++ "/" ++ arg) then
    ([.stat arg, .stat (root ++ "/" ++ arg)], .ok (root ++ "/" ++ arg))
  else
    ([.stat arg, .stat (root ++ "/" ++ arg), .walkSessions root], find root arg)

/-- The RunE body of `newViewCmd` (main.go), flag validation and effect
order: session-path resolution runs FIRST, then the color-flag conflict
check, then the `--all` mutual-exclusion check, and only then `view.Run`
(abstracted to opening the session file). -/
def viewCmdRunE (fsFile : String → Bool)
    (find : String → String → Except String String)
    (root : String) (flags : ViewFlags) : List FileEffect × Except String Unit :=
  match resolveSessionPath fsFile find flags.arg root with
  | (effects, .error e) => (effects, .error e)
  | (effects, .ok path) =>
    if flags.forceColor ∧ flags.forceNoColor then
      (effects, .error "--color and --no-color cannot be used together")
    else if flags.allFilter ∧ (flags.entryTypeArg ≠ "" ∨ flags.responseTypeArg ≠ ""
        ∨ flags.eventMsgTypeArg ≠ "" ∨ flags.payloadRoleArg ≠ "") then
      (effects, .error "--all cannot be used with -E, -T, -M, or -R flags")
    else
      (effects ++ [.openSession path], .ok ())

end MainCmd

/-! ## Helper: result of a fallible decode as an option -/

/-- The success value of an `Except`, if any. -/
def exceptOk {ε α : Type} : Except ε α → Option α
  | .ok a => some a
  | .error _ => none

/-! ## Claim C8: content-normalization round-trip -/

/-- Claim C8 (confirmed).  For every text `t`, decoding a content payload
that is the bare JSON string `t` and decoding a one-element JSON array
containing a typed text block with text `t` yield the identical single
`ContentBlock` of type `text` carrying `t`, in both the family-A normalizer
(`decodeContentBlocks`) and the family-B normalizer (`decodeContent`). -/
theorem claim_C8_content_roundtrip (t : String) :
    Parser.decodeContentBlocks (some (Json.str t)) = [⟨"text", t⟩]
    ∧ Parser.decodeContentBlocks
        (some (Json.arr [Json.obj [("type", Json.str "text"), ("text", Json.str t)]]))
        = [⟨"text", t⟩]
    ∧ Claude.decodeContent (some (Json.str t)) = [⟨"text", t⟩]
    ∧ Claude.decodeContent
        (some (Json.arr [Json.obj [("type", Json.str "text"), ("text", Json.str t)]]))
        = [⟨"text", t⟩] := by
  exact ⟨rfl, rfl, rfl, rfl⟩

/-! ## Claim C1: abort vs. skip on invalid lines -/

theorem claude_iterateEvents_characterization (lines : List (Option Json)) :
    Claude.iterateEvents lines
      = (lines.filterMap (fun l => exceptOk (Claude.parseLine l)), none) := by
  induction lines with
  | nil => rfl
  | cons line rest ih =>
    unfold Claude.iterateEvents
    cases h : Claude.parseLine line with
    | error e => simp [h, ih, exceptOk, List.filterMap_cons]
    | ok ev => simp [h, ih, exceptOk, List.filterMap_cons]

theorem parser_iterateEvents_aborts (pre : List (Option Json)) (line : Option Json)
    (post : List (Option Json))
    (hpre : ∀ l ∈ pre, (exceptOk (Parser.parseLine l)).isSome)
    (hline : exceptOk (Parser.parseLine line) = none) :
    (Parser.iterateEvents (pre ++ line :: post)).1
      = pre.filterMap (fun l => exceptOk (Parser.parseLine l))
    ∧ (Parser.iterateEvents (pre ++ line :: post)).2.isSome := by
  induction pre with
  | nil =>
    cases h : Parser.parseLine line with
    | error e => simp [Parser.iterateEvents, h]
    | ok ev => rw [h] at hline; simp [exceptOk] at hline
  | cons p rest ih =>
    have hp := hpre p (by simp)
    cases h : Parser.parseLine p with
    | error e => rw [h] at hp; simp [exceptOk] at hp
    | ok ev =>
      have ih2 := ih (fun l hl => hpre l (by simp [hl]))
      simp only [List.cons_append, Parser.iterateEvents, h]
      simp [List.filterMap_cons, h, exceptOk, ih2.1, ih2.2]

/-- Claim C1 (confirmed).  A line that fails to decode makes family A's
`IterateEvents` abort the whole file with an error, after delivering to the
callback exactly the events of the preceding (successfully decoded) lines;
family B's `IterateEvents` never aborts and delivers exactly the events of
the lines that decode, skipping the failing ones.  In both families the
callback is never invoked for the malformed line. -/
theorem claim_C1_abort_vs_skip :
    (∀ (pre : List (Option Json)) (line : Option Json) (post : List (Option Json)),
      (∀ l ∈ pre, (exceptOk (Parser.parseLine l)).isSome) →
      exceptOk (Parser.parseLine line) = none →
      (Parser.iterateEvents (pre ++ line :: post)).1
        = pre.filterMap (fun l => exceptOk (Parser.parseLine l))
      ∧ (Parser.iterateEvents (pre ++ line :: post)).2.isSome)
    ∧ (∀ lines : List (Option Json),
        Claude.iterateEvents lines
          = (lines.filterMap (fun l => exceptOk (Claude.parseLine l)), none)) :=
  ⟨parser_iterateEvents_aborts, claude_iterateEvents_characterization⟩

/-- Witness for C1 at a concrete three-line file whose middle line is not
valid JSON: family A delivers only the first event and aborts; family B
delivers the first and third events and finishes cleanly. -/
theorem claim_C1_witness :
    ((Parser.iterateEvents
        ([some (Json.obj [("type", Json.str "x")])] ++ (none : Option Json)
          :: [some (Json.obj [("type", Json.str "y")])])).1
      = [some (Json.obj [("type", Json.str "x")])].filterMap
          (fun l => exceptOk (Parser.parseLine l))
      ∧ (Parser.iterateEvents
          ([some (Json.obj [("type", Json.str "x")])] ++ (none : Option Json)
            :: [some (Json.obj [("type", Json.str "y")])])).2.isSome)
    ∧ Claude.iterateEvents [some (Json.obj [("type", Json.str "x")]), none]
        = ([some (Json.obj [("type", Json.str "x")]),
            (none : Option Json)].filterMap (fun l => exceptOk (Claude.parseLine l)),
           none) :=
  ⟨claim_C1_abort_vs_skip.1 _ _ _ (by decide) (by decide),
   claim_C1_abort_vs_skip.2 _⟩

/-! ## Claim C9: timestamp tolerance and profile order -/

theorem parser_parseEvent_zero_timestamp (j : Json) (rr : Parser.RawRecord) (e : Event)
    (hrr : Parser.unmarshalRawRecord j = .ok rr)
    (hts : rr.timestamp = "")
    (hpe : Parser.parseEvent j = .ok e) :
    e.timestamp = GoTime.zero := by
  unfold Parser.parseEvent at hpe
  rw [hrr] at hpe
  simp only [hts, if_pos] at hpe
  split at hpe <;>
    first
      | (injection hpe with hpe; rw [← hpe])
      | (split at hpe
         · exact absurd hpe (by simp)
         · injection hpe with hpe
           rw [← hpe])

theorem parser_parseEvent_unparseable_timestamp (j : Json) (rr : Parser.RawRecord)
    (hrr : Parser.unmarshalRawRecord j = .ok rr)
    (hne : rr.timestamp ≠ "")
    (h1 : goParseRFC3339Nano rr.timestamp = none)
    (h2 : goParseRFC3339 rr.timestamp = none) :
    ∃ msg, Parser.parseEvent j = .error msg := by
  unfold Parser.parseEvent
  rw [hrr]
  simp only [if_neg hne]
  unfold parseTimestamp
  rw [if_neg hne, h1, h2]
  exact ⟨_, rfl⟩

/-- Claim C9 (corrected).  (1) A record whose timestamp field is absent or
empty decodes — WHEN the rest of the record decodes — to an event carrying
the zero timestamp (an absent timestamp is never itself an error); the
unconditional "decoding succeeds" of the original claim fails, see the
counterexample.  (2) For a non-empty timestamp string, parsing tries the
fractional-seconds profile first and then the seconds-only profile, the
first success winning.  (3) If both profiles fail, the record's decode
returns an error. -/
theorem claim_C9_timestamp_rules :
    (∀ (j : Json) (rr : Parser.RawRecord) (e : Event),
        Parser.unmarshalRawRecord j = .ok rr → rr.timestamp = "" →
        Parser.parseEvent j = .ok e → e.timestamp = GoTime.zero)
    ∧ (∀ value : String, value ≠ "" →
        parseTimestamp value =
          match goParseRFC3339Nano value with
          | some ts => .ok ts
          | none =>
            match goParseRFC3339 value with
            | some ts => .ok ts
            | none => .error ("cannot parse timestamp: " ++ value))
    ∧ (∀ (j : Json) (rr : Parser.RawRecord),
        Parser.unmarshalRawRecord j = .ok rr → rr.timestamp ≠ "" →
        goParseRFC3339Nano rr.timestamp = none → goParseRFC3339 rr.timestamp = none →
        ∃ msg, Parser.parseEvent j = .error msg) := by
  refine ⟨parser_parseEvent_zero_timestamp, ?_, parser_parseEvent_unparseable_timestamp⟩
  intro value hne
  unfold parseTimestamp
  rw [if_neg hne]

/-- Counterexample to C9 as stated: the record `{"type":"session_meta"}` has
no timestamp field, yet decoding FAILS (the absent payload is rejected by
the session_meta payload unmarshal), refuting "for every record whose
timestamp field is absent or empty, decoding succeeds". -/
theorem claim_C9_counterexample :
    Parser.unmarshalRawRecord (Json.obj [("type", Json.str "session_meta")])
      = .ok ⟨"", "session_meta", none⟩
    ∧ Parser.parseEvent (Json.obj [("type", Json.str "session_meta")])
      = .error "unexpected end of JSON input" := by
  exact ⟨rfl, rfl⟩

/-- Witness for C9 at concrete records: an unknown-kind record with no
timestamp decodes with the zero timestamp; `"garbage"` fails both profiles
and makes the whole record fail. -/
theorem claim_C9_witness :
    ({ timestamp := GoTime.zero, kind := "z",
       raw := (Json.obj [("type", Json.str "z")]).render } : Event).timestamp
        = GoTime.zero
    ∧ parseTimestamp "garbage" = .error ("cannot parse timestamp: " ++ "garbage")
    ∧ ∃ msg, Parser.parseEvent (Json.obj [("timestamp", Json.str "garbage")])
        = .error msg := by
  refine ⟨?_, ?_, ?_⟩
  · exact claim_C9_timestamp_rules.1 (Json.obj [("type", Json.str "z")])
      ⟨"", "z", none⟩ _ rfl rfl rfl
  · rw [claim_C9_timestamp_rules.2.1 "garbage" (by decide)]
    rfl
  · exact claim_C9_timestamp_rules.2.2 (Json.obj [("timestamp", Json.str "garbage")])
      ⟨"garbage", "", none⟩ rfl (by decide) (by decide) (by decide)

/-! ## Claim C2: default filter sets -/

/-- Claim C2 (corrected: holds for the codex view engine; the agent-generic
engine in run.go accepts every event, see the counterexample).  With no
filter arguments, the codex engine's defaults admit exactly the events whose
entry kind is `response_item`, payload type `message`, and role `user` or
`assistant`; every other event is rejected. -/
theorem claim_C2_default_filters :
    ∀ (e : Event) (filters : Codexview.ViewFilters),
      Codexview.buildViewFilters false "" "" "" "" = .ok filters →
      (Codexview.eventMatchesFilters e filters = true ↔
        (e.kind = "response_item" ∧ e.payloadType = "message"
          ∧ (e.role = "user" ∨ e.role = "assistant"))) := by
  intro e filters h
  have hval : Codexview.buildViewFilters false "" "" "" ""
      = .ok ⟨some ["response_item"], some ["message"], none,
             some ["user", "assistant"]⟩ := rfl
  rw [hval] at h
  injection h with h
  subst h
  by_cases hk : e.kind = "response_item"
  · simp only [Codexview.eventMatchesFilters, setAllows, hk]
    by_cases hp : e.payloadType = "message" <;>
      by_cases hr : e.role = "user" <;>
        by_cases hr2 : e.role = "assistant" <;>
          simp [hp, hr, hr2]
  · simp [Codexview.eventMatchesFilters, setAllows, hk]

/-- Counterexample to C2 as stated of the agent-generic engine: under the
default filter sets, run.go's `eventMatchesFilters` accepts an `event_msg`
telemetry event (its body is a TODO returning true for every event),
contradicting "every event with any other entry kind ... is rejected by
eventMatchesFilters under these defaults". -/
theorem claim_C2_counterexample :
    (Agentview.buildViewFilters false "" "" "" "").map
        (fun filters => Agentview.eventMatchesFilters
          { kind := "event_msg", payloadType := "token_count" } filters)
      = .ok true
    ∧ ({ kind := "event_msg", payloadType := "token_count" } : Event).kind
        ≠ "response_item" := by
  exact ⟨rfl, by decide⟩

/-- Witness for C2 at concrete events: a user message passes the codex
defaults; a telemetry record does not. -/
theorem claim_C2_witness :
    Codexview.eventMatchesFilters
        { kind := "response_item", role := "user", payloadType := "message" }
        ⟨some ["response_item"], some ["message"], none, some ["user", "assistant"]⟩
      = true
    ∧ Codexview.eventMatchesFilters
        { kind := "event_msg", payloadType := "token_count" }
        ⟨some ["response_item"], some ["message"], none, some ["user", "assistant"]⟩
      = false := by
  constructor
  · exact (claim_C2_default_filters
      { kind := "response_item", role := "user", payloadType := "message" } _ rfl).mpr
      ⟨rfl, rfl, Or.inl rfl⟩
  · have hiff := claim_C2_default_filters
      { kind := "event_msg", payloadType := "token_count" } _ rfl
    simp at hiff
    exact hiff

/-! ## Claim C7: the umbrella show-everything flag -/

theorem resolveSessionPath_no_open (fsFile : String → Bool)
    (find : String → String → Except String String) (arg root : String) (p : String) :
    MainCmd.FileEffect.openSession p
      ∉ (MainCmd.resolveSessionPath fsFile find arg root).1 := by
  unfold MainCmd.resolveSessionPath
  split
  · simp
  · split
    · simp
    · split <;> simp

/-- Claim C7 (corrected).  When the umbrella `--all` flag is set, all the
inclusion sets become nil (in both view engines), so every event passes the
codex filter; supplying `--all` together with any other filter argument is
rejected as a usage error BEFORE the session file is opened — but not before
all file I/O: session-path resolution, which stats the file system, runs
first (see the counterexample). -/
theorem claim_C7_umbrella :
    (∀ entryArg responseTypeArg eventMsgTypeArg payloadRoleArg : String,
        Codexview.buildViewFilters true entryArg responseTypeArg eventMsgTypeArg
            payloadRoleArg = .ok ⟨none, none, none, none⟩
        ∧ Agentview.buildViewFilters true entryArg responseTypeArg eventMsgTypeArg
            payloadRoleArg = .ok ⟨none, none, none, none⟩)
    ∧ (∀ e : Event,
        Codexview.eventMatchesFilters e ⟨none, none, none, none⟩ = true)
    ∧ (∀ (fsFile : String → Bool) (find : String → String → Except String String)
          (root : String) (flags : MainCmd.ViewFlags) (path : String),
        (MainCmd.resolveSessionPath fsFile find flags.arg root).2 = .ok path →
        flags.allFilter = true →
        (flags.entryTypeArg ≠ "" ∨ flags.responseTypeArg ≠ ""
          ∨ flags.eventMsgTypeArg ≠ "" ∨ flags.payloadRoleArg ≠ "") →
        ¬(flags.forceColor ∧ flags.forceNoColor) →
        (MainCmd.viewCmdRunE fsFile find root flags).2
            = .error "--all cannot be used with -E, -T, -M, or -R flags"
          ∧ ∀ p, MainCmd.FileEffect.openSession p
              ∉ (MainCmd.viewCmdRunE fsFile find root flags).1) := by
  refine ⟨fun _ _ _ _ => ⟨rfl, rfl⟩, ?_, ?_⟩
  · intro e
    unfold Codexview.eventMatchesFilters
    simp only [setAllows, Bool.not_true, Bool.false_eq_true, if_false]
    split <;> simp [setAllows]
  · intro fsFile find root flags path hres hall hargs hcolor
    rcases hR : MainCmd.resolveSessionPath fsFile find flags.arg root with ⟨effs, res⟩
    rw [hR] at hres
    simp only at hres
    subst hres
    unfold MainCmd.viewCmdRunE
    rw [hR]
    simp only
    rw [if_neg hcolor]
    rw [if_pos ⟨by simp [hall], hargs⟩]
    refine ⟨rfl, fun p => ?_⟩
    have hno := resolveSessionPath_no_open fsFile find flags.arg root p
    rw [hR] at hno
    exact hno

/-- Counterexample to C7's "before any file I/O occurs": with `--all` plus a
filter argument and an existing session path, the command stats the path
(file I/O) and only then reports the mutual-exclusion usage error. -/
theorem claim_C7_counterexample :
    MainCmd.viewCmdRunE (fun p => p == "a.jsonl") (fun _ _ => .error "session not found")
        "/sessions"
        { arg := "a.jsonl", entryTypeArg := "session_meta", responseTypeArg := "",
          eventMsgTypeArg := "", payloadRoleArg := "", allFilter := true,
          forceColor := false, forceNoColor := false }
      = ([MainCmd.FileEffect.stat "a.jsonl"],
         .error "--all cannot be used with -E, -T, -M, or -R flags") := by
  rfl

/-- Witness for C7 at concrete flags: `--all` with a response-type filter on
an existing path yields the usage error. -/
theorem claim_C7_witness :
    (MainCmd.viewCmdRunE (fun p => p == "b.jsonl") (fun _ _ => .error "nf") "/s"
        { arg := "b.jsonl", entryTypeArg := "", responseTypeArg := "reasoning",
          eventMsgTypeArg := "", payloadRoleArg := "", allFilter := true,
          forceColor := false, forceNoColor := false }).2
      = .error "--all cannot be used with -E, -T, -M, or -R flags" := by
  exact (claim_C7_umbrella.2.2 (fun p => p == "b.jsonl") (fun _ _ => .error "nf") "/s"
    { arg := "b.jsonl", entryTypeArg := "", responseTypeArg := "reasoning",
      eventMsgTypeArg := "", payloadRoleArg := "", allFilter := true,
      forceColor := false, forceNoColor := false } "b.jsonl" rfl rfl
    (Or.inr (Or.inl (by decide))) (by simp)).1

/-! ## Claim C6: alignment and left padding -/

/-- Claim C6 (corrected).  For every terminal width, bubble width and base
padding, the user (right-aligned) pad is at least the center-aligned pad
and at least the left-aligned pad; the assistant (left-aligned) pad equals
the base padding constant WHENEVER the clamped maximum offset is at least
the base padding — on narrower terminals it is clamped below the constant
(see the counterexample). -/
theorem claim_C6_alignment_pads :
    ∀ totalWidth bubbleWidth padding : Int,
      alignmentForRole "user" = "right"
      ∧ alignmentForRole "assistant" = "left"
      ∧ computeLeftPad totalWidth bubbleWidth padding "center"
          ≤ computeLeftPad totalWidth bubbleWidth padding "right"
      ∧ computeLeftPad totalWidth bubbleWidth padding "left"
          ≤ computeLeftPad totalWidth bubbleWidth padding "right"
      ∧ (padding ≤ (if totalWidth - bubbleWidth - 4 < 0 then 0
            else totalWidth - bubbleWidth - 4) →
          computeLeftPad totalWidth bubbleWidth padding "left" = padding) := by
  intro totalWidth bubbleWidth padding
  refine ⟨rfl, rfl, ?_, ?_, ?_⟩
  · simp [computeLeftPad]
    split_ifs <;> omega
  · simp [computeLeftPad]
    split_ifs <;> omega
  · intro hpad
    simp [computeLeftPad]
    split_ifs at hpad ⊢ <;> omega

/-! ## Claim C3: width-aware wrapping -/

theorem wrapLoop_flatten (width : Nat) :
    ∀ (rest current : List Char) (currentWidth : Nat),
      (wrapLoop width rest current currentWidth).flatten = current ++ rest := by
  intro rest
  induction rest with
  | nil =>
    intro current currentWidth
    simp only [wrapLoop]
    split
    · simp
    · rename_i h
      rw [not_or] at h
      simp only [ne_eq, not_not] at h
      simp [h.2]
  | cons r rest ih =>
    intro current currentWidth
    simp only [wrapLoop]
    split
    · simp [ih]
    · simp [ih]

theorem wrapLoop_width_le (width : Nat) (hw : 2 ≤ width) :
    ∀ (rest current : List Char) (currentWidth : Nat),
      currentWidth = displayWidth current → currentWidth ≤ width →
      ∀ line ∈ wrapLoop width rest current currentWidth, displayWidth line ≤ width := by
  intro rest
  induction rest with
  | nil =>
    intro current currentWidth hcw hle line hline
    simp only [wrapLoop] at hline
    split at hline
    · simp at hline
      subst hline
      omega
    · simp at hline
  | cons r rest ih =>
    intro current currentWidth hcw hle line hline
    simp only [wrapLoop] at hline
    split at hline
    · rename_i hcond
      simp only [List.mem_cons] at hline
      cases hline with
      | inl h => subst h; omega
      | inr h =>
        refine ih [r] (runeWidth r) ?_ ?_ line h
        · simp [displayWidth]
        · have := runeWidth_le_two r
          omega
    · rename_i hcond
      refine ih (current ++ [r]) (currentWidth + runeWidth r) ?_ ?_ line hline
      · simp [displayWidth, hcw]
      · rw [not_and_or] at hcond
        cases hcond with
        | inl h => omega
        | inr h =>
          simp only [ne_eq, not_not] at h
          subst h
          simp [displayWidth] at hcw
          have := runeWidth_le_two r
          omega

theorem trimRightSpaces_decomposition (l : List Char) :
    ∃ k, l = trimRightSpaces l ++ List.replicate k ' ' := by
  refine ⟨(l.reverse.takeWhile (fun c => decide (c = ' '))).length, ?_⟩
  have hrep : (l.reverse.takeWhile (fun c => decide (c = ' '))).reverse
      = List.replicate (l.reverse.takeWhile (fun c => decide (c = ' '))).length ' ' := by
    apply List.eq_replicate_iff.mpr
    refine ⟨by simp, ?_⟩
    intro b hb
    rw [List.mem_reverse] at hb
    have := List.mem_takeWhile_imp hb
    simpa using this
  calc l = l.reverse.reverse := (List.reverse_reverse l).symm
    _ = ((l.reverse.takeWhile (fun c => decide (c = ' ')))
          ++ (l.reverse.dropWhile (fun c => decide (c = ' ')))).reverse := by
        rw [List.takeWhile_append_dropWhile]
    _ = (l.reverse.dropWhile (fun c => decide (c = ' '))).reverse
          ++ (l.reverse.takeWhile (fun c => decide (c = ' '))).reverse := by
        rw [List.reverse_append]
    _ = trimRightSpaces l
          ++ List.replicate (l.reverse.takeWhile (fun c => decide (c = ' '))).length ' ' := by
        rw [hrep]
        rfl

/-- Claim C3 (corrected).  For content width `W ≥ 2`, every line produced by
`wrapText` has display width at most `W`; at `W = 1` a single double-width
glyph overflows (see the counterexample), so in general every line is
bounded by `max W 2`.  For every `W ≥ 1`, concatenating the produced lines
in order reproduces the input text minus its trailing spaces — hence the
original words in their original order. -/
theorem claim_C3_wrap_bounds (width : Nat) (text : List Char) :
    (2 ≤ width → ∀ line ∈ wrapText text width, displayWidth line ≤ width)
    ∧ (1 ≤ width →
        ∃ k, text = (wrapText text width).flatten ++ List.replicate k ' ') := by
  constructor
  · intro hw line hline
    unfold wrapText at hline
    rw [if_neg (by omega)] at hline
    split at hline
    · simp at hline
      subst hline
      simp [displayWidth]
    · exact wrapLoop_width_le width hw _ [] 0 (by simp [displayWidth]) (by omega) line hline
  · intro hw
    obtain ⟨k, hk⟩ := trimRightSpaces_decomposition text
    refine ⟨k, ?_⟩
    unfold wrapText
    rw [if_neg (by omega)]
    split
    · rename_i hempty
      rw [hempty] at hk
      simpa using hk
    · rw [wrapLoop_flatten]
      simpa using hk

/-- Counterexample to C3 as stated: at width 1 the single wide glyph `你`
(display width 2) is emitted as a line of width 2 > 1. -/
theorem claim_C3_counterexample :
    wrapText ['你'] 1 = [['你']] ∧ displayWidth ['你'] = 2 := by
  exact ⟨rfl, rfl⟩

/-- Witness for C3 at width 3 on `"ab cd"`. -/
theorem claim_C3_witness :
    (∀ line ∈ wrapText "ab cd".toList 3, displayWidth line ≤ 3)
    ∧ ∃ k, "ab cd".toList = (wrapText "ab cd".toList 3).flatten
        ++ List.replicate k ' ' := by
  exact ⟨(claim_C3_wrap_bounds 3 "ab cd".toList).1 (by omega),
         (claim_C3_wrap_bounds 3 "ab cd".toList).2 (by omega)⟩

/-! ## Claim C4: ANSI-safe truncation -/

theorem dropWhile_params_append (p : Char → Bool) (params : List Char) (q : Char)
    (x : List Char) (hall : ∀ c ∈ params, p c) (hq : p q = false) :
    (params ++ q :: x).dropWhile p = q :: x := by
  induction params with
  | nil => simp [List.dropWhile_cons, hq]
  | cons a as ih =>
    have ha := hall a (by simp)
    simp [List.dropWhile_cons, ha, ih (fun c hc => hall c (by simp [hc]))]

theorem takeWhile_params_append (p : Char → Bool) (params : List Char) (q : Char)
    (x : List Char) (hall : ∀ c ∈ params, p c) (hq : p q = false) :
    (params ++ q :: x).takeWhile p = params := by
  induction params with
  | nil => simp [List.takeWhile_cons, hq]
  | cons a as ih =>
    have ha := hall a (by simp)
    simp [List.takeWhile_cons, ha, ih (fun c hc => hall c (by simp [hc]))]

theorem ansiSplit_eval (params x : List Char)
    (hall : ∀ c ∈ params, isAnsiParamChar c) :
    ansiSplit ('\x1b' :: '[' :: (params ++ 'm' :: x))
      = some ('\x1b' :: '[' :: (params ++ ['m']), x) := by
  show ansiBody (params ++ 'm' :: x) = some ('\x1b' :: '[' :: (params ++ ['m']), x)
  unfold ansiBody
  rw [dropWhile_params_append isAnsiParamChar params 'm' x hall (by rfl),
      takeWhile_params_append isAnsiParamChar params 'm' x hall (by rfl)]
  rfl

theorem stripAnsi_seq_append (params x : List Char)
    (hall : ∀ c ∈ params, isAnsiParamChar c) :
    stripAnsi (('\x1b' :: '[' :: (params ++ ['m'])) ++ x) = stripAnsi x := by
  have hshape : ('\x1b' :: '[' :: (params ++ ['m'])) ++ x
      = '\x1b' :: '[' :: (params ++ 'm' :: x) := by simp
  rw [hshape]
  exact stripAnsi_some _ _ _ (ansiSplit_eval params x hall)

theorem ansiSplit_take_none (c : Char) (rest : List Char) (k : Nat)
    (hm : ansiSplit (c :: rest) = none) :
    ansiSplit (c :: rest.take k) = none := by
  cases hsome : ansiSplit (c :: rest.take k) with
  | none => rfl
  | some pair =>
    obtain ⟨seq, tail⟩ := pair
    obtain ⟨params, hshape, hall⟩ := ansiSplit_shape _ _ _ hsome
    have happ := ansiSplit_append _ _ _ hsome
    subst hshape
    simp only [List.cons_append, List.append_assoc, List.singleton_append,
      List.cons.injEq] at happ
    obtain ⟨hc, hrtk⟩ := happ
    have hrest : rest = '[' :: (params ++ 'm' :: (tail ++ rest.drop k)) := by
      conv_lhs => rw [← List.take_append_drop k rest]
      rw [hrtk]
      simp
    rw [hc, hrest, ansiSplit_eval params (tail ++ rest.drop k) hall] at hm
    cases hm

theorem truncLoopFuel_colored (width : Nat) : ∀ (fuel : Nat) (l colored : List Char)
    (current : Nat),
    truncLoopFuel width fuel l colored current
      = colored ++ truncLoopFuel width fuel l [] current := by
  intro fuel
  induction fuel with
  | zero =>
    intro l colored current
    cases l <;> simp [truncLoopFuel]
  | succ fuel ih =>
    intro l colored current
    match l with
    | [] => simp [truncLoopFuel]
    | c :: rest =>
      cases hm : ansiSplit (c :: rest) with
      | some pair =>
        obtain ⟨seq, tail⟩ := pair
        simp only [truncLoopFuel, hm]
        rw [ih tail (colored ++ seq) current, ih tail ([] ++ seq) current]
        simp
      | none =>
        simp only [truncLoopFuel, hm]
        split
        · simp
        · rw [ih rest (colored ++ [c]) _, ih rest ([] ++ [c]) _]
          simp

theorem truncLoopFuel_take (width : Nat) : ∀ (fuel : Nat) (l colored : List Char)
    (current : Nat),
    ∃ k, truncLoopFuel width fuel l colored current = colored ++ l.take k := by
  intro fuel
  induction fuel with
  | zero =>
    intro l colored current
    refine ⟨0, ?_⟩
    cases l <;> simp [truncLoopFuel]
  | succ fuel ih =>
    intro l colored current
    match l with
    | [] => exact ⟨0, by simp [truncLoopFuel]⟩
    | c :: rest =>
      cases hm : ansiSplit (c :: rest) with
      | some pair =>
        obtain ⟨seq, tail⟩ := pair
        obtain ⟨k, hk⟩ := ih tail (colored ++ seq) current
        have happ := ansiSplit_append _ _ _ hm
        refine ⟨seq.length + k, ?_⟩
        simp only [truncLoopFuel, hm, hk]
        rw [happ, List.take_append]
        simp
      | none =>
        simp only [truncLoopFuel, hm]
        split
        · exact ⟨0, by simp⟩
        · obtain ⟨k, hk⟩ := ih rest (colored ++ [c]) (current + runeWidth c)
          refine ⟨k + 1, ?_⟩
          rw [hk]
          simp [List.take_succ_cons]

theorem truncLoopFuel_visible_le (width : Nat) : ∀ (fuel : Nat) (l : List Char)
    (current : Nat), l.length ≤ fuel → current ≤ width →
    current + visibleWidth (truncLoopFuel width fuel l [] current) ≤ width := by
  intro fuel
  induction fuel with
  | zero =>
    intro l current hlen hcur
    have : l = [] := List.eq_nil_of_length_eq_zero (by omega)
    subst this
    simp [truncLoopFuel, visibleWidth, stripAnsi, stripAnsiFuel, displayWidth]
    omega
  | succ fuel ih =>
    intro l current hlen hcur
    match l with
    | [] =>
      simp [truncLoopFuel, visibleWidth, stripAnsi, stripAnsiFuel, displayWidth]
      omega
    | c :: rest =>
      simp only [List.length_cons] at hlen
      cases hm : ansiSplit (c :: rest) with
      | some pair =>
        obtain ⟨seq, tail⟩ := pair
        have hlt := ansiSplit_rest_length _ _ _ hm
        simp only [List.length_cons] at hlt
        obtain ⟨params, hshape, hall⟩ := ansiSplit_shape _ _ _ hm
        simp only [truncLoopFuel, hm]
        rw [truncLoopFuel_colored width fuel tail ([] ++ seq) current]
        simp only [List.nil_append]
        subst hshape
        rw [visibleWidth,
          stripAnsi_seq_append params (truncLoopFuel width fuel tail [] current) hall]
        exact ih tail current (by omega) hcur
      | none =>
        simp only [truncLoopFuel, hm]
        split
        · simp [visibleWidth, stripAnsi, stripAnsiFuel, displayWidth]
          omega
        · rename_i hfits
          rw [truncLoopFuel_colored width fuel rest ([] ++ [c]) _]
          simp only [List.nil_append, List.singleton_append]
          obtain ⟨k, hk⟩ := truncLoopFuel_take width fuel rest [] (current + runeWidth c)
          rw [List.nil_append] at hk
          have hnone : ansiSplit (c :: truncLoopFuel width fuel rest [] (current + runeWidth c))
              = none := by
            rw [hk]
            exact ansiSplit_take_none c rest k hm
          rw [visibleWidth, stripAnsi_none c _ hnone]
          have hih := ih rest (current + runeWidth c) (by omega) (by omega)
          rw [visibleWidth] at hih
          simp only [displayWidth, List.map_cons, List.sum_cons] at *
          omega

/-- Claim C4 (corrected).  Truncating an already-fitting line is a no-op, so
truncation is idempotent, and the result always fits the width.  The output
is always a prefix of the input (runes and escape sequences are kept
verbatim, in order): every ANSI escape sequence BEFORE the truncation point
is preserved, but sequences after the cut are dropped along with the
overflow runes — the unconditional "preserves every ANSI escape sequence"
of the original claim fails (see the counterexample). -/
theorem claim_C4_truncate_props (text : List Char) (width : Nat) :
    (visibleWidth text ≤ width → truncateToWidth text width = text)
    ∧ truncateToWidth (truncateToWidth text width) width = truncateToWidth text width
    ∧ visibleWidth (truncateToWidth text width) ≤ width
    ∧ ∃ k, truncateToWidth text width = text.take k := by
  have hfits : visibleWidth text ≤ width → truncateToWidth text width = text := by
    intro h
    unfold truncateToWidth
    rw [if_pos h]
  have hbound : visibleWidth (truncateToWidth text width) ≤ width := by
    unfold truncateToWidth
    split
    · assumption
    · have := truncLoopFuel_visible_le width text.length text 0 (le_refl _) (by omega)
      simpa [truncLoop] using this
  have hidem : truncateToWidth (truncateToWidth text width) width
      = truncateToWidth text width := by
    generalize hy : truncateToWidth text width = y at hbound
    unfold truncateToWidth
    rw [if_pos hbound]
  refine ⟨hfits, hidem, hbound, ?_⟩
  unfold truncateToWidth
  split
  · exact ⟨text.length, by simp⟩
  · have := truncLoopFuel_take width text.length text [] 0
    simpa [truncLoop] using this

/-- Counterexample to C4 as stated: truncating `"ab\x1b[0m"` to width 1
yields `"a"` — the escape sequence after the truncation point is dropped,
not preserved. -/
theorem claim_C4_counterexample :
    truncateToWidth ("ab\x1b[0m".toList) 1 = ['a']
    ∧ ("ab\x1b[0m".toList).count '\x1b' = 1
    ∧ (['a'] : List Char).count '\x1b' = 0 := by
  decide

/-- Witness for C4: a short line is untouched; a colored line truncated to
width 2 is idempotent and a prefix of the input. -/
theorem claim_C4_witness :
    truncateToWidth ("hi".toList) 5 = "hi".toList
    ∧ truncateToWidth (truncateToWidth ("\x1b[31mabc\x1b[0m".toList) 2) 2
        = truncateToWidth ("\x1b[31mabc\x1b[0m".toList) 2
    ∧ ∃ k, truncateToWidth ("\x1b[31mabc\x1b[0m".toList) 2
        = ("\x1b[31mabc\x1b[0m".toList).take k := by
  exact ⟨(claim_C4_truncate_props "hi".toList 5).1 (by decide),
         (claim_C4_truncate_props "\x1b[31mabc\x1b[0m".toList 2).2.1,
         (claim_C4_truncate_props "\x1b[31mabc\x1b[0m".toList 2).2.2.2⟩


/-! ## Claim C5: the bounded event ring -/

/-- The last `n` elements of a list, in order (Go `xs[len(xs)-n:]`). -/
def lastN {α : Type} (n : Nat) (l : List α) : List α :=
  l.drop (l.length - n)

theorem lastN_of_le {α : Type} (n : Nat) (l : List α) (h : l.length ≤ n) :
    lastN n l = l := by
  unfold lastN
  rw [show l.length - n = 0 by omega]
  rfl

theorem lastN_length {α : Type} (n : Nat) (l : List α) :
    (lastN n l).length = min n l.length := by
  unfold lastN
  rw [List.length_drop]
  omega

theorem lastN_append_lastN {α : Type} (n : Nat) (a b : List α) :
    lastN n (lastN n a ++ b) = lastN n (a ++ b) := by
  by_cases ha : a.length ≤ n
  · rw [lastN_of_le n a ha]
  · unfold lastN
    rw [List.length_append, List.length_append, List.length_drop]
    rw [List.drop_append_eq_append_drop, List.drop_append_eq_append_drop]
    rw [List.drop_drop]
    congr 1
    · congr 1
      omega
    · congr 1
      rw [List.length_drop]
      omega

/-- The ring invariant: fixed backing size `N`, a count within capacity, a
start offset within the array. -/
def ringInv {α : Type} (N : Nat) (r : EventRing α) : Prop :=
  r.data.length = N ∧ r.length ≤ N ∧ r.start < N

theorem slice_eq_map {α : Type} [Inhabited α] (r : EventRing α) :
    r.slice = (List.range r.length).map
      (fun i => r.data.getD ((r.start + i) % r.data.length) default) := by
  unfold EventRing.slice
  split
  · rename_i h
    rw [h]
    simp
  · rfl

theorem slice_length {α : Type} [Inhabited α] (r : EventRing α) :
    r.slice.length = r.length := by
  rw [slice_eq_map]
  simp

theorem mod_cancel_ne {N start i j : Nat} (hi : i < N) (hj : j < N)
    (hne : i ≠ j) : (start + i) % N ≠ (start + j) % N := by
  intro h
  have h3 : i ≡ j [MOD N] := Nat.ModEq.add_left_cancel' start h
  have hmod : i % N = j % N := h3
  rw [Nat.mod_eq_of_lt hi, Nat.mod_eq_of_lt hj] at hmod
  exact hne hmod

theorem push_slice_not_full {α : Type} [Inhabited α] (N : Nat) (hN : 0 < N)
    (r : EventRing α) (e : α) (h : ringInv N r) (hlt : r.length < N) :
    ringInv N (r.push e) ∧ (r.push e).slice = r.slice ++ [e] := by
  obtain ⟨hdl, hlen, hstart⟩ := h
  unfold EventRing.push
  rw [if_neg (by omega)]
  rw [if_pos (by omega)]
  refine ⟨⟨by simp [hdl], by simp; omega, by simpa using hstart⟩, ?_⟩
  rw [slice_eq_map, slice_eq_map]
  simp only [List.length_set, hdl]
  rw [List.range_succ, List.map_append, List.map_singleton]
  congr 1
  · apply List.map_congr_left
    intro i hi
    rw [List.mem_range] at hi
    rw [List.getD_eq_getElem?_getD, List.getD_eq_getElem?_getD,
      List.getElem?_set_ne (mod_cancel_ne (by omega) (by omega) (by omega))]
  · rw [List.getD_eq_getElem?_getD,
      List.getElem?_set_self (by rw [hdl]; exact Nat.mod_lt _ hN)]
    rfl

theorem push_slice_full {α : Type} [Inhabited α] (N : Nat) (hN : 0 < N)
    (r : EventRing α) (e : α) (h : ringInv N r) (hfull : r.length = N) :
    ringInv N (r.push e) ∧ (r.push e).slice = r.slice.drop 1 ++ [e] := by
  obtain ⟨hdl, hlen, hstart⟩ := h
  unfold EventRing.push
  rw [if_neg (by omega)]
  rw [if_neg (by omega)]
  have hidx : (r.start + r.length) % r.data.length = r.start := by
    rw [hdl, hfull, Nat.add_mod_right, Nat.mod_eq_of_lt hstart]
  rw [hidx]
  refine ⟨⟨by simp [hdl], by simp; omega, ?_⟩, ?_⟩
  · simp only [List.length_set]
    rw [hdl]
    exact Nat.mod_lt _ hN
  · rw [slice_eq_map, slice_eq_map]
    simp only [List.length_set, hdl, hfull]
    apply List.ext_getElem
    · simp
      omega
    · intro i hi1 hi2
      simp only [List.length_map, List.length_range] at hi1
      rw [List.getElem_map, List.getElem_range]
      by_cases hlast : i = N - 1
      · subst hlast
        have hcalc : ((r.start + 1) % N + (N - 1)) % N = r.start := by
          rw [Nat.mod_add_mod]
          rw [show r.start + 1 + (N - 1) = r.start + N by omega]
          rw [Nat.add_mod_right, Nat.mod_eq_of_lt hstart]
        rw [hcalc]
        rw [List.getD_eq_getElem?_getD,
          List.getElem?_set_self (by rw [hdl]; exact hstart)]
        rw [List.getElem_append_right (by simp)]
        simp
      · have hi3 : i < N - 1 := by omega
        have hL : ((r.start + 1) % N + i) % N = (r.start + (1 + i)) % N := by
          rw [Nat.mod_add_mod]
          congr 1
          omega
        rw [hL]
        have hne : r.start ≠ (r.start + (1 + i)) % N := by
          have h0 : (r.start + 0) % N ≠ (r.start + (1 + i)) % N :=
            mod_cancel_ne (by omega) (by omega) (by omega)
          rwa [Nat.add_zero, Nat.mod_eq_of_lt hstart] at h0
        rw [List.getD_eq_getElem?_getD, List.getElem?_set_ne hne]
        rw [List.getElem_append_left (by simp; omega)]
        rw [List.getElem_drop]
        rw [List.getElem_map, List.getElem_range]
        rw [List.getD_eq_getElem?_getD]

theorem slice_push {α : Type} [Inhabited α] (N : Nat) (hN : 0 < N)
    (r : EventRing α) (e : α) (h : ringInv N r) :
    ringInv N (r.push e) ∧ (r.push e).slice = lastN N (r.slice ++ [e]) := by
  by_cases hlt : r.length < N
  · obtain ⟨hinv, hs⟩ := push_slice_not_full N hN r e h hlt
    refine ⟨hinv, ?_⟩
    rw [hs, lastN_of_le]
    rw [List.length_append, slice_length]
    simp
    omega
  · have hfull : r.length = N := by
      obtain ⟨_, hlen, _⟩ := h
      omega
    obtain ⟨hinv, hs⟩ := push_slice_full N hN r e h hfull
    refine ⟨hinv, ?_⟩
    rw [hs]
    unfold lastN
    rw [List.length_append, slice_length, hfull]
    rw [show N + [e].length - N = 1 by simp]
    rw [List.drop_append_eq_append_drop]
    rw [show 1 - r.slice.length = 0 by rw [slice_length]; omega]
    rfl

theorem slice_pushAll {α : Type} [Inhabited α] (N : Nat) (hN : 0 < N) :
    ∀ (xs : List α) (r : EventRing α), ringInv N r →
      ringInv N (r.pushAll xs) ∧ (r.pushAll xs).slice = lastN N (r.slice ++ xs) := by
  intro xs
  induction xs with
  | nil =>
    intro r hr
    refine ⟨hr, ?_⟩
    unfold EventRing.pushAll
    simp only [List.foldl_nil]
    rw [List.append_nil]
    exact (lastN_of_le N _ (by rw [slice_length]; exact hr.2.1)).symm
  | cons x xs ih =>
    intro r hr
    have hstep := slice_push N hN r x hr
    have hrec := ih (r.push x) hstep.1
    unfold EventRing.pushAll at hrec ⊢
    simp only [List.foldl_cons]
    refine ⟨hrec.1, ?_⟩
    rw [hrec.2, hstep.2, lastN_append_lastN]
    congr 1
    simp

theorem newEventRing_inv (α : Type) [Inhabited α] (capacity : Int)
    (hcap : 1 ≤ capacity) :
    ringInv capacity.toNat (newEventRing α capacity)
      ∧ (newEventRing α capacity).slice = [] := by
  unfold newEventRing
  rw [if_neg (by omega)]
  exact ⟨⟨by simp, by simp, by simp; omega⟩, rfl⟩

/-- Claim C5 (confirmed).  For every capacity `N ≥ 1` and sequence of `m`
pushed events, `slice` returns exactly the last `min(m, N)` events in push
order (`xs.drop (m - N)`), and when the ring is full each further push
evicts exactly the single oldest retained event (strict FIFO). -/
theorem claim_C5_ring_fifo {α : Type} [Inhabited α] (capacity : Int)
    (hcap : 1 ≤ capacity) :
    (∀ xs : List α,
      ((newEventRing α capacity).pushAll xs).slice
        = xs.drop (xs.length - capacity.toNat))
    ∧ (∀ (xs : List α) (e : α), capacity.toNat ≤ xs.length →
        (((newEventRing α capacity).pushAll xs).push e).slice
          = (((newEventRing α capacity).pushAll xs).slice).drop 1 ++ [e]) := by
  have hN : 0 < capacity.toNat := by omega
  obtain ⟨hinv, hempty⟩ := newEventRing_inv α capacity hcap
  constructor
  · intro xs
    have hs := (slice_pushAll capacity.toNat hN xs _ hinv).2
    rw [hempty] at hs
    simpa [lastN] using hs
  · intro xs e hlen
    have hall := slice_pushAll capacity.toNat hN xs _ hinv
    have hflen : ((newEventRing α capacity).pushAll xs).length = capacity.toNat := by
      have hl := slice_length ((newEventRing α capacity).pushAll xs)
      rw [hall.2, hempty] at hl
      rw [lastN_length] at hl
      simp at hl
      omega
    exact (push_slice_full capacity.toNat hN _ e hall.1 hflen).2

/-- Witness for C5 at capacity 2 with three pushes: the ring retains the
last two events, and a fourth push evicts the oldest. -/
theorem claim_C5_witness :
    ((newEventRing Nat 2).pushAll [1, 2, 3]).slice = [2, 3]
    ∧ (((newEventRing Nat 2).pushAll [1, 2, 3]).push 4).slice
        = (((newEventRing Nat 2).pushAll [1, 2, 3]).slice).drop 1 ++ [4] := by
  constructor
  · have hs := (claim_C5_ring_fifo (α := Nat) 2 (by decide)).1 [1, 2, 3]
    simpa using hs
  · exact (claim_C5_ring_fifo (α := Nat) 2 (by decide)).2 [1, 2, 3] 4 (by decide)

/-! ## Claim C10: limitEvents vs. the ring -/

/-- Claim C10 (confirmed).  For every `max > 0` and event sequence, keeping
the last `max` events by slicing the collected list (`limitEvents`) produces
exactly the same list as pushing every event through a capacity-`max`
`eventRing` and calling `slice`. -/
theorem claim_C10_limit_ring_equiv {α : Type} [Inhabited α] (max : Int)
    (hmax : 0 < max) (events : List α) :
    limitEvents events max = ((newEventRing α max).pushAll events).slice := by
  have hN : 0 < max.toNat := by omega
  obtain ⟨hinv, hempty⟩ := newEventRing_inv α max (by omega)
  have hs := (slice_pushAll max.toNat hN events _ hinv).2
  rw [hempty] at hs
  rw [hs]
  unfold limitEvents lastN
  simp only [List.nil_append]
  split
  · rename_i h
    have hle : events.length ≤ max.toNat := by
      cases h with
      | inl h => omega
      | inr h => omega
    rw [show events.length - max.toNat = 0 by omega]
    rfl
  · rfl

/-- Witness for C10 at `max = 2` on three events. -/
theorem claim_C10_witness :
    limitEvents [10, 20, 30] (2 : Int)
      = ((newEventRing Nat 2).pushAll [10, 20, 30]).slice :=
  claim_C10_limit_ring_equiv 2 (by decide) [10, 20, 30]

/-- Counterexample to C6 as stated: at terminal width 10 and bubble width 8
the assistant-role (left-aligned) pad is the clamped maximum offset 0, not
the base padding constant 2. -/
theorem claim_C6_counterexample :
    computeLeftPad 10 8 2 (alignmentForRole "assistant") = 0 ∧ (0 : Int) ≠ 2 := by
  exact ⟨rfl, by decide⟩

/-- Witness for C6 at terminal width 80 and bubble width 20. -/
theorem claim_C6_witness :
    computeLeftPad 80 20 2 "center" ≤ computeLeftPad 80 20 2 "right"
    ∧ computeLeftPad 80 20 2 "left" = 2 := by
  refine ⟨(claim_C6_alignment_pads 80 20 2).2.2.1, ?_⟩
  exact (claim_C6_alignment_pads 80 20 2).2.2.2.2 (by decide)
